import Mathlib

/-!
Verification development for the flow-controlled write engine of
`p2p/transport/webrtc/stream_write.go` (type `webRTCStreamWriter`).

Shallow embedding notes.

* The writer interacts with a concurrently changing environment: the
  stream's state handler (`AllowWrite`), the data channel's buffered-byte
  counter (`BufferedAmount`), the stored write deadline (mutable through
  `SetWriteDeadline`), the outcome of the `select` when a write is blocked,
  and the result of handing a message to the `pbio` writer (`WriteMsg`).
  All of these are modelled as oracles, indexed by the loop-iteration
  number of `writeMessage` (one `MsgEnv` per `writeMessage` call, and a
  family `Nat → MsgEnv` for the chunk loop of `Write`).
* The unbounded `for` loop of `writeMessage` is modelled with explicit
  fuel; running out of fuel yields `none` ("the call is still blocked"),
  which never coincides with a returned value.
* Go `time.Time` is modelled as `Int`; the zero value (`IsZero`) is `0`.
  `time.Unix(math.MaxInt64, 0)` is the sentinel `maxInt64`.
* The configuration constants `maxMessageSize`, `protoOverhead`,
  `varintOverhead`, `maxBufferedAmount` are referenced by the source but
  declared elsewhere in the repository; they are carried as a `Config`
  parameter.
* Lines 46-75 of the source (the once-per-stream background goroutine
  draining inbound flags when the read side is closed) spawn a goroutine
  and have no effect on the value returned by `Write`; they belong to the
  read direction and are not part of this model.
-/

namespace StreamWrite

/-- Configuration constants. They are referenced by `stream_write.go` but
declared in a file of the repository that is not under `src/`; the spec
lists them as construction-time constants (maxFrameSize / frameOverhead /
maxBufferedAmount). -/
structure Config where
  maxMessageSize : Nat
  protoOverhead : Nat
  varintOverhead : Nat
  maxBufferedAmount : Nat
deriving DecidableEq

/-- Source line 77: `const chunkSize = maxMessageSize - protoOverhead - varintOverhead`. -/
def chunkSize (c : Config) : Nat :=
  c.maxMessageSize - c.protoOverhead - c.varintOverhead

/-- Control flags of `pb.Message` (the protobuf type is not under `src/`;
flag names follow the spec's FIN / RESET vocabulary). -/
inductive Flag where
  | FIN
  | STOP_SENDING
  | RESET
deriving DecidableEq

/-- Modelled from the spec: a Frame / `pb.Message` carries either payload
bytes or a control flag (the protobuf `Message` type itself is not under
`src/`). Bytes are `Nat`s. -/
structure Message where
  flag : Option Flag
  payload : List Nat
deriving DecidableEq

/-- A data frame, as built by `Write` in `&pb.Message{Message: b[:end]}`. -/
def mkData (bs : List Nat) : Message := ⟨none, bs⟩

/-- The FIN frame sent by `CloseWrite`: `&pb.Message{Flag: pb.Message_FIN.Enum()}`. -/
def finMessage : Message := ⟨some Flag.FIN, []⟩

/-- Modelled from the spec: `proto.Size(msg)` — the serialized size of a
frame is its payload length plus a fixed metadata cost (`frameOverhead`,
spec §6, which the source splits into `protoOverhead` inside the message
and `varintOverhead` outside it). The protobuf encoder is not under `src/`. -/
def protoSize (c : Config) (m : Message) : Nat :=
  c.protoOverhead + m.payload.length

/-- Errors a write-path call can return. `closedPipe` is `io.ErrClosedPipe`,
`deadlineExceeded` is `os.ErrDeadlineExceeded`, `transport e` is an error
returned by the `pbio` writer's `WriteMsg` (opaque, carried as a code). -/
inductive WError where
  | closedPipe
  | deadlineExceeded
  | transport (code : Nat)
deriving DecidableEq

/-- Which arm of the `select` at source lines 130-142 fires when the write
is blocked on flow control. -/
inductive WakeEvent where
  | deadlineTimer
  | writeAvailable
  | ctxDone
  | deadlineUpdated
deriving DecidableEq

/-- Oracle environment for one `writeMessage` call, indexed by the
iteration number of its `for` loop:
`allowWrite i` is `w.stream.stateHandler.AllowWrite()` at iteration `i`;
`bufferedAmount i` is the channel's `BufferedAmount()` read at iteration `i`;
`deadline i` is the stored write deadline `w.deadline` as read by
`getWriteDeadline` at iteration `i` (it may change between iterations via
`SetWriteDeadline`); `wake i` is the `select` arm that fires if iteration
`i` blocks; `sendResult` is the outcome of `writer.WriteMsg` for this
message (`none` = success) — consulted at most once per call. -/
structure MsgEnv where
  allowWrite : Nat → Bool
  bufferedAmount : Nat → Nat
  deadline : Nat → Int
  wake : Nat → WakeEvent
  sendResult : Option Nat

/-- Sentinel for `time.Unix(math.MaxInt64, 0)` (source line 119). -/
def maxInt64 : Int := 2 ^ 63 - 1

/-- Source lines 117-120: the deadline the timer is armed with — the stored
deadline when one is set (`!deadline.IsZero()`), else the far-future
sentinel. -/
def effDeadline (d : Int) : Int :=
  if d = 0 then maxInt64 else d

/-- Outcome of one iteration of the `writeMessage` loop. `ret r sent`
means the call returns `r` after handing the messages `sent` to the
writer; `loop` means the iteration fell through the `deadlineUpdated`
arm and the loop continues. -/
inductive WMStep where
  | ret (r : Nat × Option WError) (sent : List Message)
  | loop
deriving DecidableEq

/-- One iteration of the `for` loop of `writeMessage` (source lines
108-150), at iteration index `i`:
line 109: if `AllowWrite` is false, return `(0, io.ErrClosedPipe)`;
lines 127-129: read `BufferedAmount`, compute
`addedBuffer = bufferedAmount + varintOverhead + proto.Size(msg)`;
if `addedBuffer > maxBufferedAmount`, block in the `select`:
  timer fired → `(0, os.ErrDeadlineExceeded)`;
  `writeAvailable` → hand `msg` to the writer, return its error or
    `(len(msg.Message), nil)`;
  `ctx.Done` → `(0, io.ErrClosedPipe)`;
  `deadlineUpdated` → fall through, next iteration;
otherwise hand `msg` to the writer directly (lines 144-148). -/
def wmStep (c : Config) (env : MsgEnv) (msg : Message) (i : Nat) : WMStep :=
  if env.allowWrite i = false then
    WMStep.ret (0, some WError.closedPipe) []
  else
    let bufferedAmount := env.bufferedAmount i
    let addedBuffer := bufferedAmount + c.varintOverhead + protoSize c msg
    if addedBuffer > c.maxBufferedAmount then
      match env.wake i with
      | WakeEvent.deadlineTimer => WMStep.ret (0, some WError.deadlineExceeded) []
      | WakeEvent.writeAvailable =>
          match env.sendResult with
          | some e => WMStep.ret (0, some (WError.transport e)) [msg]
          | none => WMStep.ret (msg.payload.length, none) [msg]
      | WakeEvent.ctxDone => WMStep.ret (0, some WError.closedPipe) []
      | WakeEvent.deadlineUpdated => WMStep.loop
    else
      match env.sendResult with
      | some e => WMStep.ret (0, some (WError.transport e)) [msg]
      | none => WMStep.ret (msg.payload.length, none) [msg]

/-- Observable outcome of a `writeMessage` call: `armed` records, per
executed iteration, the deadline the write-deadline timer was (re)armed
with (source lines 117-125); `sent` records the messages handed to
`writeMessageToWriter`; `result` is the returned `(int, error)` pair, or
`none` when the fuel ran out with the call still blocked. -/
structure WMOut where
  armed : List Int
  sent : List Message
  result : Option (Nat × Option WError)
deriving DecidableEq

/-- The `for` loop of `writeMessage`, from iteration `i`, with explicit
fuel. Each executed iteration first re-reads the deadline and (re)arms the
timer (recorded in `armed`), then runs `wmStep`. -/
def writeMessageAux (c : Config) (env : MsgEnv) (msg : Message) :
    Nat → Nat → WMOut
  | _, 0 => ⟨[], [], none⟩
  | i, fuel + 1 =>
    let a := effDeadline (env.deadline i)
    match wmStep c env msg i with
    | WMStep.ret r s => ⟨[a], s, some r⟩
    | WMStep.loop =>
        let rest := writeMessageAux c env msg (i + 1) fuel
        ⟨a :: rest.armed, rest.sent, rest.result⟩

/-- `writeMessage` (source lines 100-151): run the loop from iteration 0. -/
def writeMessageGo (c : Config) (env : MsgEnv) (msg : Message) (fuel : Nat) :
    WMOut :=
  writeMessageAux c env msg 0 fuel

/-- Source lines 85-88: the size of the next chunk,
`end = len(b); if chunkSize < end { end = chunkSize }`. -/
def chunkLen (c : Config) (b : List Nat) : Nat :=
  if chunkSize c < b.length then chunkSize c else b.length

/-- The chunk loop of `Write` (source lines 84-96): while payload remains,
take `end = min(len(b), chunkSize)` bytes, call `writeMessage` on them,
accumulate the written count, stop on error. `k` indexes the per-chunk
environments. Returns the messages handed to the writer and the
`(int, error)` result (`none` when some inner call never returned). -/
def writeLoop (c : Config) (envs : Nat → MsgEnv) (wfuel : Nat) :
    List Nat → Nat → Nat → List Message × Option (Nat × Option WError)
  | _, _, 0 => ([], none)
  | b, k, lfuel + 1 =>
    if b.isEmpty then ([], some (0, none))
    else
      let e := chunkLen c b
      let out := writeMessageGo c (envs k) (mkData (b.take e)) wfuel
      match out.result with
      | none => (out.sent, none)
      | some (written, some err) => (out.sent, some (written, some err))
      | some (written, none) =>
          let rest := writeLoop c envs wfuel (b.drop e) (k + 1) lfuel
          (out.sent ++ rest.1,
           match rest.2 with
           | none => none
           | some (n2, e2) => some (written + n2, e2))

/-- `Write` (source lines 39-98): line 40 checks `AllowWrite` once
(`allow0`) and returns `(0, io.ErrClosedPipe)` when it is false; then the
chunk loop runs (the read-drain goroutine of lines 46-75 does not affect
the returned value and belongs to the read direction). -/
def WriteGo (c : Config) (envs : Nat → MsgEnv) (allow0 : Bool) (b : List Nat)
    (wfuel lfuel : Nat) : List Message × Option (Nat × Option WError) :=
  if allow0 = false then ([], some (0, some WError.closedPipe))
  else writeLoop c envs wfuel b 0 lfuel

/-- Deadline state of the writer: the stored `w.deadline` and whether the
`deadlineUpdated` condition variable has been signalled. -/
structure DeadlineState where
  deadline : Int
  updSignaled : Bool
deriving DecidableEq

/-- `SetWriteDeadline` (source lines 159-165): store `t` under the mutex,
signal `deadlineUpdated`, return nil. -/
def SetWriteDeadlineGo (_s : DeadlineState) (t : Int) :
    DeadlineState × Option WError :=
  (⟨t, true⟩, none)

/-- `getWriteDeadline` (source lines 167-171): the stored deadline and
whether it is set (`!IsZero`). -/
def getWriteDeadlineGo (s : DeadlineState) : Int × Bool :=
  (s.deadline, decide (s.deadline ≠ 0))

/-- Modelled from the spec: the four send states of the spec's
SendStateMachine (§4.1); the `streamStateHandler` implementation is not
under `src/`. -/
inductive SendState where
  | Sending
  | DataSent
  | DataReceived
  | Reset
deriving DecidableEq

/-- Modelled from the spec: the graceful-close transition of §4.1
(`beginClose`): `Sending → DataSent`, no-op from any other state. In the
source, `CloseWrite` drives this through `stateHandler.CloseRead()` after
a successful FIN send; that handler is not under `src/`. -/
def beginClose : SendState → SendState
  | SendState.Sending => SendState.DataSent
  | s => s

/-- Stream-side state seen by `CloseWrite`: `closed` is `stream.isClosed()`;
`readClosed` records whether the read direction has already closed (so that
a successful close of the write direction makes the whole stream closed,
the `state == stateClosed` check of source line 190); `sendState` is the
spec-modelled send state; `onceDone` is whether `w.closeOnce` has fired. -/
structure StreamSt where
  closed : Bool
  readClosed : Bool
  sendState : SendState
  onceDone : Bool
deriving DecidableEq

/-- `CloseWrite` (source lines 173-195): return nil if the stream is
already closed; `closeOnce.Do` runs its body only the first time (on later
calls the local `err` stays nil). The body sends a FIN via `writeMessage`;
on failure it returns the (wrapped, same underlying) error without
advancing the state; on success it advances the send state (the
`stateHandler.CloseRead()` call, modelled from the spec as `beginClose`),
signals `writeAvailable`, and fully closes the stream when both directions
are now closed. Returns the new state, the returned error, and the
messages handed to the writer; `none` when the inner FIN write never
returned. -/
def CloseWriteGo (c : Config) (env : MsgEnv) (wfuel : Nat) (st : StreamSt) :
    Option (StreamSt × Option WError × List Message) :=
  if st.closed then some (st, none, [])
  else if st.onceDone then some (st, none, [])
  else
    let out := writeMessageGo c env finMessage wfuel
    match out.result with
    | none => none
    | some (_, some e) => some ({ st with onceDone := true }, some e, out.sent)
    | some (_, none) =>
        let st1 : StreamSt :=
          { st with onceDone := true, sendState := beginClose st.sendState }
        let st2 : StreamSt :=
          if st1.readClosed then { st1 with closed := true } else st1
        some (st2, none, out.sent)

end StreamWrite

namespace StreamWrite

/-! ## Concrete instances used by witnesses and counterexamples -/

/-- Example configuration: chunkSize = 5 - 1 - 1 = 3. -/
def cEx : Config := ⟨5, 1, 1, 100⟩

/-- Environment with an always-writable state, an empty channel buffer, no
deadline, and a succeeding writer. -/
def envOk : MsgEnv :=
  ⟨fun _ => true, fun _ => 0, fun _ => 0, fun _ => WakeEvent.deadlineUpdated, none⟩

/-- Like `envOk` but the writer's `WriteMsg` fails with error code 7. -/
def envSendFail : MsgEnv :=
  ⟨fun _ => true, fun _ => 0, fun _ => 0, fun _ => WakeEvent.deadlineUpdated, some 7⟩

/-- A freshly opened stream: not closed, read side open, `Sending`,
close-once not yet fired. -/
def stOpen : StreamSt := ⟨false, false, SendState.Sending, false⟩

/-- Stream state after a `CloseWrite` whose FIN send failed: the once-guard
fired but the send state did not advance. -/
def stOnceFailed : StreamSt := ⟨false, false, SendState.Sending, true⟩

/-- Stream state after a successful `CloseWrite` on `stOpen`. -/
def stDataSent : StreamSt := ⟨false, false, SendState.DataSent, true⟩

/-- The frames produced by the first `k` full chunks of payload `b`:
frame `j` carries bytes `[j*chunkSize, (j+1)*chunkSize)` of the payload. -/
def chunkFrames (c : Config) (b : List Nat) (k : Nat) : List Message :=
  (List.range k).map (fun j => mkData ((b.drop (j * chunkSize c)).take (chunkSize c)))

/-- The flow-control admission rule as the claim words it (min-frame floor,
frame shrunk to the available space): this definition follows the claim's
text, NOT the source, and exists only to be compared against the code's
behaviour. `none` means "send nothing yet". -/
def specNextFrameSize (L maxFrameSize availSpace frameOverhead minFrameSize : Nat) :
    Option Nat :=
  if availSpace < minFrameSize then none
  else if min L (min maxFrameSize availSpace) ≤ frameOverhead then none
  else some (min L (min maxFrameSize availSpace) - frameOverhead)

/-- Configuration for the C1 counterexample: chunkSize = 10 - 2 - 1 = 7. -/
def cC1 : Config := ⟨10, 2, 1, 100⟩

/-- Environment for the C1 counterexample: the channel constantly reports
90 buffered bytes, so available space is 10; writes are allowed and the
writer succeeds. -/
def envC1 : MsgEnv :=
  ⟨fun _ => true, fun _ => 90, fun _ => 0, fun _ => WakeEvent.deadlineUpdated, none⟩

/-- Environment with a write deadline far in the past (time is modelled
with "now" at 0, so -100 is already expired), an empty channel buffer and
a succeeding writer; the timer arm of the select would fire if the write
ever blocked. -/
def envPastDeadline : MsgEnv :=
  ⟨fun _ => true, fun _ => 0, fun _ => -100, fun _ => WakeEvent.deadlineTimer, none⟩

/-- Environment for the C4 counterexample: the stream is writable only at
iteration 0, the channel constantly reports 200 buffered bytes (over any
limit of `cEx`), and the blocked select is woken by `writeAvailable`. -/
def envWA : MsgEnv :=
  ⟨fun i => i == 0, fun _ => 200, fun _ => 0, fun _ => WakeEvent.writeAvailable, none⟩

/-- Environment for the C7 witness: permanently blocked (200 buffered
bytes), woken only by deadline updates, with the stored deadline read as 5
at iteration 0 and as 9 afterwards (a concurrent `SetWriteDeadline 9`
between the iterations). -/
def envDl : MsgEnv :=
  ⟨fun _ => true, fun _ => 200, fun j => if j = 0 then 5 else 9,
   fun _ => WakeEvent.deadlineUpdated, none⟩

/-- Environment whose state handler refuses writing (stream closed or
reset). -/
def envDeny : MsgEnv :=
  ⟨fun _ => false, fun _ => 0, fun _ => 0, fun _ => WakeEvent.deadlineUpdated, none⟩

/-- Per-chunk environments for the C8 witness: rounds 0 and 1 succeed, the
stream stops being writable before round 2. -/
def envsC8 : Nat → MsgEnv := fun j => if j < 2 then envOk else envDeny

/-- Per-chunk environments for the C9 witness: rounds 0 and 1 succeed, the
channel writer rejects the frame of round 2. -/
def envsC9 : Nat → MsgEnv := fun j => if j < 2 then envOk else envSendFail

/-- Environment for the C3 witness: write blocked (200 buffered bytes over
any `cEx` limit), the stored deadline already expired (-100 with "now" at
0), and the expired timer arm fires in the select. -/
def envTimerFires : MsgEnv :=
  ⟨fun _ => true, fun _ => 200, fun _ => -100, fun _ => WakeEvent.deadlineTimer, none⟩

/-! ## Helper lemmas about one iteration and the loop -/

/-- Exhaustive description of the possible outcomes of one loop iteration. -/
theorem wmStep_cases (c : Config) (env : MsgEnv) (msg : Message) (i : Nat) :
    wmStep c env msg i = WMStep.ret (0, some WError.closedPipe) [] ∨
    wmStep c env msg i = WMStep.ret (0, some WError.deadlineExceeded) [] ∨
    (∃ e, env.sendResult = some e ∧
      wmStep c env msg i = WMStep.ret (0, some (WError.transport e)) [msg]) ∨
    (env.sendResult = none ∧
      wmStep c env msg i = WMStep.ret (msg.payload.length, none) [msg]) ∨
    wmStep c env msg i = WMStep.loop := by
  by_cases h1 : env.allowWrite i = false
  · exact Or.inl (by simp [wmStep, h1])
  · by_cases h2 :
      env.bufferedAmount i + c.varintOverhead + protoSize c msg > c.maxBufferedAmount
    · cases hw : env.wake i with
      | deadlineTimer => exact Or.inr (Or.inl (by simp [wmStep, h1, h2, hw]))
      | writeAvailable =>
          cases hs : env.sendResult with
          | none =>
              exact Or.inr (Or.inr (Or.inr (Or.inl
                ⟨rfl, by simp [wmStep, h1, h2, hw, hs]⟩)))
          | some e =>
              exact Or.inr (Or.inr (Or.inl
                ⟨e, rfl, by simp [wmStep, h1, h2, hw, hs]⟩))
      | ctxDone => exact Or.inl (by simp [wmStep, h1, h2, hw])
      | deadlineUpdated =>
          exact Or.inr (Or.inr (Or.inr (Or.inr (by simp [wmStep, h1, h2, hw]))))
    · cases hs : env.sendResult with
      | none =>
          exact Or.inr (Or.inr (Or.inr (Or.inl
            ⟨rfl, by simp [wmStep, h1, h2, hs]⟩)))
      | some e =>
          exact Or.inr (Or.inr (Or.inl
            ⟨e, rfl, by simp [wmStep, h1, h2, hs]⟩))

/-- Unfolding equation: an iteration that returns. -/
theorem writeMessageAux_ret (c : Config) (env : MsgEnv) (msg : Message)
    (i f : Nat) (r : Nat × Option WError) (s : List Message)
    (hc : wmStep c env msg i = WMStep.ret r s) :
    writeMessageAux c env msg i (f + 1) =
      ⟨[effDeadline (env.deadline i)], s, some r⟩ := by
  simp [writeMessageAux, hc]

/-- Unfolding equation: an iteration that falls through to the next one. -/
theorem writeMessageAux_loop (c : Config) (env : MsgEnv) (msg : Message)
    (i f : Nat) (hc : wmStep c env msg i = WMStep.loop) :
    writeMessageAux c env msg i (f + 1) =
      ⟨effDeadline (env.deadline i) :: (writeMessageAux c env msg (i + 1) f).armed,
       (writeMessageAux c env msg (i + 1) f).sent,
       (writeMessageAux c env msg (i + 1) f).result⟩ := by
  simp [writeMessageAux, hc]

/-- A `writeMessage` call that returns success handed exactly the one
message to the writer, reported its full payload length, and the writer
reported success. -/
theorem writeMessageAux_success (c : Config) (env : MsgEnv) (msg : Message) :
    ∀ fuel i n, (writeMessageAux c env msg i fuel).result = some (n, none) →
      (writeMessageAux c env msg i fuel).sent = [msg] ∧
      n = msg.payload.length ∧ env.sendResult = none := by
  intro fuel
  induction fuel with
  | zero => intro i n h; simp [writeMessageAux] at h
  | succ f ih =>
      intro i n h
      rcases wmStep_cases c env msg i with hc | hc | ⟨e, hs, hc⟩ | ⟨hs, hc⟩ | hc
      · rw [writeMessageAux_ret c env msg i f _ _ hc] at h; simp at h
      · rw [writeMessageAux_ret c env msg i f _ _ hc] at h; simp at h
      · rw [writeMessageAux_ret c env msg i f _ _ hc] at h; simp at h
      · rw [writeMessageAux_ret c env msg i f _ _ hc] at h ⊢
        simp at h
        exact ⟨rfl, h.symm, hs⟩
      · rw [writeMessageAux_loop c env msg i f hc] at h ⊢
        exact ih (i + 1) n h

/-- A `writeMessage` call that returns a transport error handed exactly the
one message to the writer, reported zero bytes written, and the writer
reported that error. -/
theorem writeMessageAux_transport (c : Config) (env : MsgEnv) (msg : Message) :
    ∀ fuel i n e, (writeMessageAux c env msg i fuel).result
        = some (n, some (WError.transport e)) →
      (writeMessageAux c env msg i fuel).sent = [msg] ∧
      n = 0 ∧ env.sendResult = some e := by
  intro fuel
  induction fuel with
  | zero => intro i n e h; simp [writeMessageAux] at h
  | succ f ih =>
      intro i n e h
      rcases wmStep_cases c env msg i with hc | hc | ⟨e2, hs, hc⟩ | ⟨hs, hc⟩ | hc
      · rw [writeMessageAux_ret c env msg i f _ _ hc] at h; simp at h
      · rw [writeMessageAux_ret c env msg i f _ _ hc] at h; simp at h
      · rw [writeMessageAux_ret c env msg i f _ _ hc] at h ⊢
        simp at h
        exact ⟨rfl, h.1.symm, h.2 ▸ hs⟩
      · rw [writeMessageAux_ret c env msg i f _ _ hc] at h; simp at h
      · rw [writeMessageAux_loop c env msg i f hc] at h ⊢
        exact ih (i + 1) n e h

/-- Any run of the loop hands the message to the writer at most once, only
ever that message, and when it did hand it over, the call returned
immediately with the send outcome. -/
theorem writeMessageAux_atMostOnce (c : Config) (env : MsgEnv) (msg : Message) :
    ∀ fuel i,
      (writeMessageAux c env msg i fuel).sent.length ≤ 1 ∧
      (∀ m ∈ (writeMessageAux c env msg i fuel).sent, m = msg) ∧
      ((writeMessageAux c env msg i fuel).sent ≠ [] →
        (writeMessageAux c env msg i fuel).result =
          some (match env.sendResult with
                | none => (msg.payload.length, (none : Option WError))
                | some e => (0, some (WError.transport e)))) := by
  intro fuel
  induction fuel with
  | zero => intro i; simp [writeMessageAux]
  | succ f ih =>
      intro i
      rcases wmStep_cases c env msg i with hc | hc | ⟨e, hs, hc⟩ | ⟨hs, hc⟩ | hc
      · rw [writeMessageAux_ret c env msg i f _ _ hc]; simp
      · rw [writeMessageAux_ret c env msg i f _ _ hc]; simp
      · rw [writeMessageAux_ret c env msg i f _ _ hc]; simp [hs]
      · rw [writeMessageAux_ret c env msg i f _ _ hc]; simp [hs]
      · rw [writeMessageAux_loop c env msg i f hc]
        exact ih (i + 1)

/-! ## C10 -/

/-- C10: within a single `writeMessage` call, the message is handed to the
underlying writer at most once — only that message ever — and once a send
was attempted the call returned immediately, with the payload length on
success or with the send error on failure, no matter how many blocking
iterations preceded the attempt. -/
theorem c10_writeMessage_sends_at_most_once (c : Config) (env : MsgEnv)
    (msg : Message) (fuel : Nat) :
    (writeMessageGo c env msg fuel).sent.length ≤ 1 ∧
    (∀ m ∈ (writeMessageGo c env msg fuel).sent, m = msg) ∧
    ((writeMessageGo c env msg fuel).sent ≠ [] →
      (writeMessageGo c env msg fuel).result =
        some (match env.sendResult with
              | none => (msg.payload.length, (none : Option WError))
              | some e => (0, some (WError.transport e)))) :=
  writeMessageAux_atMostOnce c env msg fuel 0

/-- C10 witness: the property evaluated on a concrete call. -/
theorem c10_witness :
    (writeMessageGo cEx envOk (mkData [1, 2]) 3).sent.length ≤ 1 ∧
    (∀ m ∈ (writeMessageGo cEx envOk (mkData [1, 2]) 3).sent, m = mkData [1, 2]) ∧
    ((writeMessageGo cEx envOk (mkData [1, 2]) 3).sent ≠ [] →
      (writeMessageGo cEx envOk (mkData [1, 2]) 3).result =
        some (match envOk.sendResult with
              | none => ((mkData [1, 2]).payload.length, (none : Option WError))
              | some e => (0, some (WError.transport e)))) :=
  c10_writeMessage_sends_at_most_once cEx envOk (mkData [1, 2]) 3

/-! ## C6 -/

/-- C6: two `closeWrite` calls with the FIN send succeeding return nil both
times and hand exactly one FIN frame to the writer in total: a first call
that returns with no error sent exactly `[finMessage]`, and the second
call returns nil having sent nothing. -/
theorem c6_closeWrite_idempotent (c : Config) (env env2 : MsgEnv)
    (wf wf2 : Nat) (st st1 : StreamSt) (ms : List Message)
    (h0 : st.closed = false) (h1 : st.onceDone = false)
    (h : CloseWriteGo c env wf st = some (st1, none, ms)) :
    ms = [finMessage] ∧ CloseWriteGo c env2 wf2 st1 = some (st1, none, []) := by
  simp only [CloseWriteGo, h0, h1, Bool.false_eq_true, if_false] at h
  cases hres : (writeMessageGo c env finMessage wf).result with
  | none => rw [hres] at h; simp at h
  | some p =>
      obtain ⟨n, er⟩ := p
      cases er with
      | some e => rw [hres] at h; simp at h
      | none =>
          rw [hres] at h
          have hsent := (writeMessageAux_success c env finMessage wf 0 n hres).1
          simp only [Option.some_inj, Prod.mk.injEq, true_and] at h
          obtain ⟨hst, hms⟩ := h
          constructor
          · rw [← hms]; exact hsent
          · by_cases hr : st.readClosed = true
            · have hcl : st1.closed = true := by rw [← hst]; simp [hr]
              simp [CloseWriteGo, hcl]
            · have hcl : st1.closed = false := by
                rw [← hst]; simp [hr, h0]
              have hod : st1.onceDone = true := by rw [← hst]; simp [hr]
              simp [CloseWriteGo, hcl, hod]

/-- C6 witness: concrete double close on a fresh stream with a succeeding
writer. -/
theorem c6_witness :
    stOpen.closed = false ∧ stOpen.onceDone = false ∧
    CloseWriteGo cEx envOk 3 stOpen = some (stDataSent, none, [finMessage]) ∧
    ([finMessage] = [finMessage] ∧
      CloseWriteGo cEx envOk 3 stDataSent = some (stDataSent, none, [])) :=
  ⟨rfl, rfl, by decide,
    c6_closeWrite_idempotent cEx envOk envOk 3 3 stOpen stDataSent [finMessage]
      rfl rfl (by decide)⟩

/-! ## C5 -/

/-- C5 counterexample: on a fresh stream whose writer rejects the FIN
(error code 7), the first `closeWrite` returns that failure without
advancing the send state — but, contrary to the claim, the stream is NOT
left closable again: the once-guard has fired, so a second `closeWrite`
(here with a writer that would succeed) returns nil and sends no FIN at
all, instead of attempting the FIN again. -/
theorem c5_counterexample :
    CloseWriteGo cEx envSendFail 3 stOpen
      = some (stOnceFailed, some (WError.transport 7), [finMessage]) ∧
    CloseWriteGo cEx envOk 3 stOnceFailed = some (stOnceFailed, none, []) := by
  decide

/-- C5 amended: if the FIN send inside `closeWrite` fails, the call returns
that failure and the close state is not advanced (the send state is
unchanged and the stream is not marked closed); however the once-guard is
consumed, so a subsequent `closeWrite` returns nil without sending any FIN
frame. -/
theorem c5_closeWrite_fail_no_retry (c : Config) (env env2 : MsgEnv)
    (wf wf2 : Nat) (st st1 : StreamSt) (e : WError) (ms : List Message)
    (h0 : st.closed = false) (h1 : st.onceDone = false)
    (h : CloseWriteGo c env wf st = some (st1, some e, ms)) :
    st1.sendState = st.sendState ∧ st1.closed = false ∧
    CloseWriteGo c env2 wf2 st1 = some (st1, none, []) := by
  simp only [CloseWriteGo, h0, h1, Bool.false_eq_true, if_false] at h
  cases hres : (writeMessageGo c env finMessage wf).result with
  | none => rw [hres] at h; simp at h
  | some p =>
      obtain ⟨n, er⟩ := p
      cases er with
      | none => rw [hres] at h; simp at h
      | some e2 =>
          rw [hres] at h
          simp only [Option.some_inj, Prod.mk.injEq] at h
          obtain ⟨hst, -, -⟩ := h
          have hss : st1.sendState = st.sendState := by rw [← hst]
          have hcl : st1.closed = false := by rw [← hst]
          have hod : st1.onceDone = true := by rw [← hst]
          exact ⟨hss, hcl, by simp [CloseWriteGo, hcl, hod]⟩

/-- C5 amended witness: the concrete failing close followed by a nil,
send-free second close. -/
theorem c5_witness :
    stOpen.closed = false ∧ stOpen.onceDone = false ∧
    CloseWriteGo cEx envSendFail 3 stOpen
      = some (stOnceFailed, some (WError.transport 7), [finMessage]) ∧
    (stOnceFailed.sendState = stOpen.sendState ∧ stOnceFailed.closed = false ∧
      CloseWriteGo cEx envOk 3 stOnceFailed = some (stOnceFailed, none, [])) :=
  ⟨rfl, rfl, by decide,
    c5_closeWrite_fail_no_retry cEx envSendFail envOk 3 3 stOpen stOnceFailed
      (WError.transport 7) [finMessage] rfl rfl (by decide)⟩

/-! ## Loop unfolding equations and C2 -/

/-- chunkLen equals `min L chunkSize` and never exceeds the payload. -/
theorem chunkLen_eq_min (c : Config) (b : List Nat) :
    chunkLen c b = min (chunkSize c) b.length := by
  unfold chunkLen
  split <;> omega

/-- Unfolding: the chunk loop with exhausted fuel. -/
theorem writeLoop_zero (c : Config) (envs : Nat → MsgEnv) (wf : Nat)
    (b : List Nat) (k : Nat) : writeLoop c envs wf b k 0 = ([], none) := rfl

/-- Unfolding: the chunk loop on an empty payload returns `(0, nil)`. -/
theorem writeLoop_nil (c : Config) (envs : Nat → MsgEnv) (wf : Nat)
    (k lf : Nat) : writeLoop c envs wf [] k (lf + 1) = ([], some (0, none)) := rfl

/-- Unfolding: one round of the chunk loop on a non-empty payload. -/
theorem writeLoop_cons (c : Config) (envs : Nat → MsgEnv) (wf : Nat)
    (b : List Nat) (k lf : Nat) (hb : b.isEmpty = false) :
    writeLoop c envs wf b k (lf + 1) =
      match (writeMessageGo c (envs k) (mkData (b.take (chunkLen c b))) wf).result with
      | none => ((writeMessageGo c (envs k) (mkData (b.take (chunkLen c b))) wf).sent, none)
      | some (written, some err) =>
          ((writeMessageGo c (envs k) (mkData (b.take (chunkLen c b))) wf).sent,
           some (written, some err))
      | some (written, none) =>
          ((writeMessageGo c (envs k) (mkData (b.take (chunkLen c b))) wf).sent
             ++ (writeLoop c envs wf (b.drop (chunkLen c b)) (k + 1) lf).1,
           match (writeLoop c envs wf (b.drop (chunkLen c b)) (k + 1) lf).2 with
           | none => none
           | some (n2, e2) => some (written + n2, e2)) := by
  simp [writeLoop, hb]

/-- A chunk-loop run that returns with a nil error wrote every payload
byte: the reported count is the payload length, the frames handed to the
writer are the payload's consecutive chunks in order (their concatenation
is the payload), and every frame is a flag-free data frame of at most
`chunkSize` bytes. -/
theorem writeLoop_success (c : Config) (envs : Nat → MsgEnv) (wf : Nat) :
    ∀ lf b k n ms, writeLoop c envs wf b k lf = (ms, some (n, none)) →
      n = b.length ∧ (ms.map Message.payload).flatten = b ∧
      ∀ m ∈ ms, m.payload.length ≤ chunkSize c ∧ m.flag = none := by
  intro lf
  induction lf with
  | zero => intro b k n ms h; rw [writeLoop_zero] at h; simp at h
  | succ lf ih =>
      intro b k n ms h
      by_cases hb : b.isEmpty
      · rw [List.isEmpty_iff.mp hb] at h ⊢
        rw [writeLoop_nil] at h
        obtain ⟨hms, hn⟩ : ([] : List Message) = ms ∧ (0 : Nat) = n := by
          simpa [Prod.ext_iff] using h
        subst hms; subst hn
        simp
      · rw [writeLoop_cons c envs wf b k lf (by simpa using hb)] at h
        cases hres : (writeMessageGo c (envs k) (mkData (b.take (chunkLen c b))) wf).result with
        | none => rw [hres] at h; simp at h
        | some p =>
            obtain ⟨written, er⟩ := p
            cases er with
            | some e => rw [hres] at h; simp at h
            | none =>
                rw [hres] at h
                obtain ⟨hsent0, hwr, -⟩ :=
                  writeMessageAux_success c (envs k)
                    (mkData (b.take (chunkLen c b))) wf 0 written hres
                have hsent :
                    (writeMessageGo c (envs k) (mkData (b.take (chunkLen c b))) wf).sent
                      = [mkData (b.take (chunkLen c b))] := hsent0
                cases hrest : (writeLoop c envs wf (b.drop (chunkLen c b)) (k + 1) lf).2 with
                | none => rw [hrest] at h; simp at h
                | some q =>
                    obtain ⟨n2, e2⟩ := q
                    rw [hrest] at h
                    obtain ⟨hms, hn, he⟩ :
                        (writeMessageGo c (envs k) (mkData (b.take (chunkLen c b))) wf).sent
                            ++ (writeLoop c envs wf (b.drop (chunkLen c b)) (k + 1) lf).1 = ms ∧
                          written + n2 = n ∧ e2 = none := by
                      simpa [Prod.ext_iff] using h
                    subst he
                    obtain ⟨ihn, ihjoin, ihall⟩ :=
                      ih (b.drop (chunkLen c b)) (k + 1) n2
                        (writeLoop c envs wf (b.drop (chunkLen c b)) (k + 1) lf).1
                        (by rw [← hrest])
                    have hlen : (b.take (chunkLen c b)).length = chunkLen c b := by
                      rw [List.length_take]
                      have := chunkLen_eq_min c b
                      omega
                    have hwr2 : written = chunkLen c b := by
                      rw [hwr]; simpa [mkData] using hlen
                    constructor
                    · rw [← hn, hwr2, ihn, List.length_drop]
                      have := chunkLen_eq_min c b
                      omega
                    constructor
                    · rw [← hms, hsent]
                      simp only [List.map_append, List.map_cons, List.map_nil,
                        List.flatten_append, List.flatten_cons, List.flatten_nil,
                        mkData, ihjoin]
                      simp [List.take_append_drop (chunkLen c b) b]
                    · intro m hm
                      rw [← hms, hsent] at hm
                      rcases List.mem_append.mp hm with hm1 | hm2
                      · rcases List.mem_singleton.mp hm1 with rfl
                        refine ⟨?_, rfl⟩
                        rw [mkData] at *
                        have := chunkLen_eq_min c b
                        simp only []
                        omega
                      · exact ihall m hm2

/-- C2: a successful `Write(payload)` call sends frames whose payloads are
consecutive, in-order slices of the payload (their concatenation is the
payload), each a flag-free data frame of at most
`maxMessageSize - protoOverhead - varintOverhead` bytes, and the call
returns the payload length with a nil error. -/
theorem c2_write_chunks_in_order (c : Config) (envs : Nat → MsgEnv)
    (allow0 : Bool) (b : List Nat) (wf lf n : Nat) (ms : List Message)
    (h : WriteGo c envs allow0 b wf lf = (ms, some (n, none))) :
    n = b.length ∧ (ms.map Message.payload).flatten = b ∧
    ∀ m ∈ ms, m.payload.length ≤ chunkSize c ∧ m.flag = none := by
  unfold WriteGo at h
  cases ha : allow0 with
  | false => rw [ha] at h; simp at h
  | true =>
      rw [ha] at h
      simp only [Bool.true_eq_false, if_false] at h
      exact writeLoop_success c envs wf lf b 0 n ms h

/-- C2 witness: a concrete five-byte write through a three-byte chunk size
produces the two expected frames. -/
theorem c2_witness :
    WriteGo cEx (fun _ => envOk) true [5, 6, 7, 8, 9] 2 3
        = ([mkData [5, 6, 7], mkData [8, 9]], some (5, none)) ∧
    (5 = ([5, 6, 7, 8, 9] : List Nat).length ∧
      (([mkData [5, 6, 7], mkData [8, 9]].map Message.payload).flatten
          = [5, 6, 7, 8, 9]) ∧
      ∀ m ∈ [mkData [5, 6, 7], mkData [8, 9]],
        m.payload.length ≤ chunkSize cEx ∧ m.flag = none) :=
  ⟨by decide,
    c2_write_chunks_in_order cEx (fun _ => envOk) true [5, 6, 7, 8, 9] 2 3 5
      [mkData [5, 6, 7], mkData [8, 9]] (by decide)⟩

/-! ## Prefix composition of successful chunk rounds (for C8, C9) -/

/-- chunkFrames unfolding: the first frame, then the frames of the rest. -/
theorem chunkFrames_succ (c : Config) (b : List Nat) (k : Nat) :
    chunkFrames c b (k + 1) =
      mkData (b.take (chunkSize c)) :: chunkFrames c (b.drop (chunkSize c)) k := by
  unfold chunkFrames
  rw [List.range_succ_eq_map]
  simp only [List.map_cons, List.map_map, Nat.zero_mul, List.drop_zero]
  congr 1
  apply List.map_congr_left
  intro j _
  simp only [Function.comp_apply]
  rw [List.drop_drop]
  have h : Nat.succ j * chunkSize c = chunkSize c + j * chunkSize c := by
    rw [Nat.succ_mul, Nat.add_comm]
  rw [h]

/-- Composition: `k` chunk rounds whose environments admit the frame at
once and whose sends succeed peel the first `k*chunkSize` bytes off the
payload, emit exactly the corresponding frames, and add `k*chunkSize` to
the byte count of whatever the loop does afterwards. -/
theorem writeLoop_prefix (c : Config) (envs : Nat → MsgEnv) (wf : Nat) :
    ∀ k b k0 lf,
      (∀ j, j < k → (envs (k0 + j)).allowWrite 0 = true ∧
        (envs (k0 + j)).sendResult = none ∧
        (envs (k0 + j)).bufferedAmount 0 + c.varintOverhead + c.protoOverhead
          + chunkSize c ≤ c.maxBufferedAmount) →
      k * chunkSize c < b.length →
      (writeLoop c envs (wf + 1) b k0 (k + lf)).1
          = chunkFrames c b k
              ++ (writeLoop c envs (wf + 1) (b.drop (k * chunkSize c)) (k0 + k) lf).1 ∧
      (writeLoop c envs (wf + 1) b k0 (k + lf)).2
          = Option.map (fun r => (k * chunkSize c + r.1, r.2))
              (writeLoop c envs (wf + 1) (b.drop (k * chunkSize c)) (k0 + k) lf).2 := by
  intro k
  induction k with
  | zero =>
      intro b k0 lf _ _
      simp only [Nat.zero_mul, List.drop_zero, Nat.add_zero, Nat.zero_add,
        chunkFrames, List.range_zero, List.map_nil, List.nil_append]
      refine ⟨trivial, ?_⟩
      cases (writeLoop c envs (wf + 1) b k0 lf).2 with
      | none => rfl
      | some p => obtain ⟨n, e⟩ := p; simp
  | succ k ih =>
      intro b k0 lf hgood hlen
      have hmul : (k + 1) * chunkSize c = k * chunkSize c + chunkSize c :=
        Nat.succ_mul k (chunkSize c)
      have hb : b.isEmpty = false := by
        cases b with
        | nil => simp at hlen
        | cons a t => rfl
      have hcsb : chunkSize c < b.length := by omega
      have hchunk : chunkLen c b = chunkSize c := by
        rw [chunkLen_eq_min]; omega
      have hg0 := hgood 0 (Nat.succ_pos k)
      simp only [Nat.add_zero] at hg0
      have hplen : (b.take (chunkSize c)).length = chunkSize c := by
        rw [List.length_take]; omega
      have hnb : ¬ (envs k0).bufferedAmount 0 + c.varintOverhead
          + protoSize c (mkData (b.take (chunkSize c))) > c.maxBufferedAmount := by
        obtain ⟨-, -, hbuf⟩ := hg0
        simp only [protoSize, mkData]
        rw [hplen]
        omega
      have hplen2 : (mkData (b.take (chunkSize c))).payload.length = chunkSize c :=
        hplen
      have hstep : wmStep c (envs k0) (mkData (b.take (chunkSize c))) 0
          = WMStep.ret ((mkData (b.take (chunkSize c))).payload.length, none)
              [mkData (b.take (chunkSize c))] := by
        obtain ⟨ha, hs, -⟩ := hg0
        simp [wmStep, ha, hs, hnb]
      have hout : writeMessageGo c (envs k0) (mkData (b.take (chunkSize c))) (wf + 1)
          = ⟨[effDeadline ((envs k0).deadline 0)], [mkData (b.take (chunkSize c))],
             some ((mkData (b.take (chunkSize c))).payload.length, none)⟩ :=
        writeMessageAux_ret c (envs k0) (mkData (b.take (chunkSize c))) 0 wf _ _ hstep
      have harith : (k + 1) + lf = (k + lf) + 1 := by omega
      have hround : writeLoop c envs (wf + 1) b k0 ((k + lf) + 1)
          = (mkData (b.take (chunkSize c))
               :: (writeLoop c envs (wf + 1) (b.drop (chunkSize c)) (k0 + 1) (k + lf)).1,
             match (writeLoop c envs (wf + 1) (b.drop (chunkSize c)) (k0 + 1) (k + lf)).2 with
             | none => none
             | some (n2, e2) =>
                 some ((mkData (b.take (chunkSize c))).payload.length + n2, e2)) := by
        rw [writeLoop_cons c envs (wf + 1) b k0 (k + lf) hb, hchunk, hout]
        rfl
      have hgood2 : ∀ j, j < k → (envs ((k0 + 1) + j)).allowWrite 0 = true ∧
          (envs ((k0 + 1) + j)).sendResult = none ∧
          (envs ((k0 + 1) + j)).bufferedAmount 0 + c.varintOverhead + c.protoOverhead
            + chunkSize c ≤ c.maxBufferedAmount := by
        intro j hj
        have hrw : (k0 + 1) + j = k0 + (j + 1) := by omega
        rw [hrw]
        exact hgood (j + 1) (by omega)
      have hlen2 : k * chunkSize c < (b.drop (chunkSize c)).length := by
        rw [List.length_drop]; omega
      obtain ⟨ih1, ih2⟩ := ih (b.drop (chunkSize c)) (k0 + 1) lf hgood2 hlen2
      have hdd : (b.drop (chunkSize c)).drop (k * chunkSize c)
          = b.drop ((k + 1) * chunkSize c) := by
        rw [List.drop_drop]
        congr 1
        omega
      have hk0 : (k0 + 1) + k = k0 + (k + 1) := by omega
      constructor
      · rw [harith, hround]
        dsimp only
        rw [ih1, chunkFrames_succ, hdd, hk0, List.cons_append]
      · rw [harith, hround]
        dsimp only
        rw [ih2, hdd, hk0]
        cases (writeLoop c envs (wf + 1) (b.drop ((k + 1) * chunkSize c))
            (k0 + (k + 1)) lf).2 with
        | none => rfl
        | some p =>
            obtain ⟨n2, e2⟩ := p
            dsimp only [Option.map]
            rw [hplen2]
            congr 2
            omega

/-! ## C8 and C9 -/

/-- Taking `chunkLen` bytes is the same as taking `chunkSize` bytes. -/
theorem take_chunkLen (c : Config) (b : List Nat) :
    b.take (chunkLen c b) = b.take (chunkSize c) := by
  rw [chunkLen_eq_min]
  rcases Nat.le_total (chunkSize c) b.length with h | h
  · rw [Nat.min_eq_left h]
  · rw [Nat.min_eq_right h, List.take_length, List.take_of_length_le h]

/-- A payload with bytes beyond the first `k` chunks is nonempty after
dropping those chunks. -/
theorem drop_chunk_isEmpty_eq_false (b : List Nat) (m : Nat)
    (hrem : m < b.length) : (b.drop m).isEmpty = false := by
  cases hdp : b.drop m with
  | nil =>
      have hl := congrArg List.length hdp
      simp only [List.length_drop, List.length_nil] at hl
      omega
  | cons a t => rfl

/-- C8: a `Write` call made while `allowWrite()` is false fails immediately
with `io.ErrClosedPipe`, zero bytes and no frame sent; and the check is
re-applied at the start of every per-frame round, so if the first `k`
chunk rounds complete and the state handler then denies writing, the call
fails with that error while reporting the `k * chunkSize` bytes already
written, having sent exactly the first `k` frames. -/
theorem c8_write_after_close (c : Config) (envs : Nat → MsgEnv) (b : List Nat)
    (wf lf k : Nat)
    (hgood : ∀ j, j < k → (envs j).allowWrite 0 = true ∧
      (envs j).sendResult = none ∧
      (envs j).bufferedAmount 0 + c.varintOverhead + c.protoOverhead
        + chunkSize c ≤ c.maxBufferedAmount)
    (hdeny : (envs k).allowWrite 0 = false)
    (hrem : k * chunkSize c < b.length) :
    WriteGo c envs false b wf lf = ([], some (0, some WError.closedPipe)) ∧
    WriteGo c envs true b (wf + 1) (k + (lf + 1))
      = (chunkFrames c b k, some (k * chunkSize c, some WError.closedPipe)) := by
  constructor
  · rfl
  · show writeLoop c envs (wf + 1) b 0 (k + (lf + 1))
      = (chunkFrames c b k, some (k * chunkSize c, some WError.closedPipe))
    have hgood0 : ∀ j, j < k → (envs (0 + j)).allowWrite 0 = true ∧
        (envs (0 + j)).sendResult = none ∧
        (envs (0 + j)).bufferedAmount 0 + c.varintOverhead + c.protoOverhead
          + chunkSize c ≤ c.maxBufferedAmount := by
      intro j hj
      simpa using hgood j hj
    obtain ⟨lp1, lp2⟩ := writeLoop_prefix c envs wf k b 0 (lf + 1) hgood0 hrem
    simp only [Nat.zero_add] at lp1 lp2
    have hb2 := drop_chunk_isEmpty_eq_false b (k * chunkSize c) hrem
    have hstep : wmStep c (envs k)
        (mkData ((b.drop (k * chunkSize c)).take
          (chunkLen c (b.drop (k * chunkSize c))))) 0
        = WMStep.ret (0, some WError.closedPipe) [] := by
      simp [wmStep, hdeny]
    have hout : writeMessageGo c (envs k)
        (mkData ((b.drop (k * chunkSize c)).take
          (chunkLen c (b.drop (k * chunkSize c))))) (wf + 1)
        = ⟨[effDeadline ((envs k).deadline 0)], [],
           some (0, some WError.closedPipe)⟩ :=
      writeMessageAux_ret c (envs k)
        (mkData ((b.drop (k * chunkSize c)).take
          (chunkLen c (b.drop (k * chunkSize c))))) 0 wf _ _ hstep
    have hfinal : writeLoop c envs (wf + 1) (b.drop (k * chunkSize c)) k (lf + 1)
        = ([], some (0, some WError.closedPipe)) := by
      rw [writeLoop_cons c envs (wf + 1) (b.drop (k * chunkSize c)) k lf hb2, hout]
    refine Prod.ext ?_ ?_
    · rw [lp1, hfinal]
      simp
    · rw [lp2, hfinal]
      simp

/-- C8 witness: two successful three-byte rounds, then the state handler
denies writing; the call reports 6 bytes and `closedPipe`, with exactly
the two frames sent. -/
theorem c8_witness :
    (∀ j, j < 2 → (envsC8 j).allowWrite 0 = true ∧
      (envsC8 j).sendResult = none ∧
      (envsC8 j).bufferedAmount 0 + cEx.varintOverhead + cEx.protoOverhead
        + chunkSize cEx ≤ cEx.maxBufferedAmount) ∧
    (envsC8 2).allowWrite 0 = false ∧
    2 * chunkSize cEx < ([0, 1, 2, 3, 4, 5, 6, 7] : List Nat).length ∧
    (WriteGo cEx envsC8 false [0, 1, 2, 3, 4, 5, 6, 7] 0 1
        = ([], some (0, some WError.closedPipe)) ∧
      WriteGo cEx envsC8 true [0, 1, 2, 3, 4, 5, 6, 7] 1 3
        = (chunkFrames cEx [0, 1, 2, 3, 4, 5, 6, 7] 2,
           some (2 * chunkSize cEx, some WError.closedPipe))) :=
  ⟨by decide, by decide, by decide,
    c8_write_after_close cEx envsC8 [0, 1, 2, 3, 4, 5, 6, 7] 0 0 2
      (by decide) (by decide) (by decide)⟩

/-- C9: if the underlying channel writer rejects a frame, `Write` fails
immediately with that error, hands that frame to the writer exactly once
(no retry), and reports the bytes written by the previously successful
frames: after `k` successful rounds, a round whose admission passes but
whose send fails ends the call with the transport error, byte count
`k * chunkSize`, and a send trace of the `k` frames plus the failed frame
once. -/
theorem c9_send_failure_no_retry (c : Config) (envs : Nat → MsgEnv)
    (b : List Nat) (wf lf k : Nat) (e : Nat)
    (hgood : ∀ j, j < k → (envs j).allowWrite 0 = true ∧
      (envs j).sendResult = none ∧
      (envs j).bufferedAmount 0 + c.varintOverhead + c.protoOverhead
        + chunkSize c ≤ c.maxBufferedAmount)
    (hallow : (envs k).allowWrite 0 = true)
    (hfail : (envs k).sendResult = some e)
    (hadm : (envs k).bufferedAmount 0 + c.varintOverhead
        + protoSize c (mkData ((b.drop (k * chunkSize c)).take (chunkSize c)))
      ≤ c.maxBufferedAmount)
    (hrem : k * chunkSize c < b.length) :
    WriteGo c envs true b (wf + 1) (k + (lf + 1))
      = (chunkFrames c b k ++ [mkData ((b.drop (k * chunkSize c)).take (chunkSize c))],
         some (k * chunkSize c, some (WError.transport e))) := by
  show writeLoop c envs (wf + 1) b 0 (k + (lf + 1)) = _
  have hgood0 : ∀ j, j < k → (envs (0 + j)).allowWrite 0 = true ∧
      (envs (0 + j)).sendResult = none ∧
      (envs (0 + j)).bufferedAmount 0 + c.varintOverhead + c.protoOverhead
        + chunkSize c ≤ c.maxBufferedAmount := by
    intro j hj
    simpa using hgood j hj
  obtain ⟨lp1, lp2⟩ := writeLoop_prefix c envs wf k b 0 (lf + 1) hgood0 hrem
  simp only [Nat.zero_add] at lp1 lp2
  have hb2 := drop_chunk_isEmpty_eq_false b (k * chunkSize c) hrem
  have htake := take_chunkLen c (b.drop (k * chunkSize c))
  have hnb : ¬ (envs k).bufferedAmount 0 + c.varintOverhead
      + protoSize c (mkData ((b.drop (k * chunkSize c)).take
          (chunkLen c (b.drop (k * chunkSize c))))) > c.maxBufferedAmount := by
    rw [htake]
    omega
  have hstep : wmStep c (envs k)
      (mkData ((b.drop (k * chunkSize c)).take
        (chunkLen c (b.drop (k * chunkSize c))))) 0
      = WMStep.ret (0, some (WError.transport e))
          [mkData ((b.drop (k * chunkSize c)).take
            (chunkLen c (b.drop (k * chunkSize c))))] := by
    simp [wmStep, hallow, hfail, hnb]
  have hout : writeMessageGo c (envs k)
      (mkData ((b.drop (k * chunkSize c)).take
        (chunkLen c (b.drop (k * chunkSize c))))) (wf + 1)
      = ⟨[effDeadline ((envs k).deadline 0)],
         [mkData ((b.drop (k * chunkSize c)).take
           (chunkLen c (b.drop (k * chunkSize c))))],
         some (0, some (WError.transport e))⟩ :=
    writeMessageAux_ret c (envs k)
      (mkData ((b.drop (k * chunkSize c)).take
        (chunkLen c (b.drop (k * chunkSize c))))) 0 wf _ _ hstep
  have hfinal : writeLoop c envs (wf + 1) (b.drop (k * chunkSize c)) k (lf + 1)
      = ([mkData ((b.drop (k * chunkSize c)).take (chunkSize c))],
         some (0, some (WError.transport e))) := by
    rw [writeLoop_cons c envs (wf + 1) (b.drop (k * chunkSize c)) k lf hb2, hout,
      htake]
  refine Prod.ext ?_ ?_
  · rw [lp1, hfinal]
  · rw [lp2, hfinal]
    simp

/-- C9 witness: two successful rounds, then the writer rejects the third
frame with error code 7; the call reports 6 bytes and the transport error,
and the failed two-byte frame appears exactly once in the trace. -/
theorem c9_witness :
    (∀ j, j < 2 → (envsC9 j).allowWrite 0 = true ∧
      (envsC9 j).sendResult = none ∧
      (envsC9 j).bufferedAmount 0 + cEx.varintOverhead + cEx.protoOverhead
        + chunkSize cEx ≤ cEx.maxBufferedAmount) ∧
    (envsC9 2).allowWrite 0 = true ∧
    (envsC9 2).sendResult = some 7 ∧
    (envsC9 2).bufferedAmount 0 + cEx.varintOverhead
        + protoSize cEx (mkData ((([0, 1, 2, 3, 4, 5, 6, 7] : List Nat).drop
            (2 * chunkSize cEx)).take (chunkSize cEx)))
      ≤ cEx.maxBufferedAmount ∧
    WriteGo cEx envsC9 true [0, 1, 2, 3, 4, 5, 6, 7] 1 3
      = (chunkFrames cEx [0, 1, 2, 3, 4, 5, 6, 7] 2
           ++ [mkData ((([0, 1, 2, 3, 4, 5, 6, 7] : List Nat).drop
                (2 * chunkSize cEx)).take (chunkSize cEx))],
         some (2 * chunkSize cEx, some (WError.transport 7))) :=
  ⟨by decide, by decide, by decide, by decide,
    c9_send_failure_no_retry cEx envsC9 [0, 1, 2, 3, 4, 5, 6, 7] 0 0 2 7
      (by decide) (by decide) (by decide) (by decide) (by decide)⟩

/-! ## C4 -/

/-- C4 counterexample: the write is blocked on flow control at iteration 0
(the admission sum exceeds the ceiling) and is woken by the space-available
notification; contrary to the claim, the engine hands the frame to the
writer immediately, without re-checking the stream state or re-evaluating
the admission rule — here the state handler would refuse writing from
iteration 1 on and the admission sum still exceeds the ceiling, yet the
frame is sent and the call succeeds. -/
theorem c4_counterexample :
    cEx.maxBufferedAmount < envWA.bufferedAmount 0 + cEx.varintOverhead
        + protoSize cEx (mkData [1, 2]) ∧
    envWA.wake 0 = WakeEvent.writeAvailable ∧
    envWA.allowWrite 1 = false ∧
    cEx.maxBufferedAmount < envWA.bufferedAmount 1 + cEx.varintOverhead
        + protoSize cEx (mkData [1, 2]) ∧
    writeMessageGo cEx envWA (mkData [1, 2]) 3
      = ⟨[maxInt64], [mkData [1, 2]], some (2, none)⟩ := by
  decide

/-- C4 amended: when a write is blocked on flow control, only the
deadline-updated wakeup loops back and re-runs the state check and the
admission computation (with the same, unconsumed message); the
space-available wakeup hands the frame to the writer immediately without
any re-check, and the context-done wakeup fails with `closedPipe` without
sending. -/
theorem c4_wakeup_reeval (c : Config) (env : MsgEnv) (msg : Message)
    (i fuel : Nat)
    (hallow : env.allowWrite i = true)
    (hblocked : c.maxBufferedAmount < env.bufferedAmount i + c.varintOverhead
        + protoSize c msg) :
    (env.wake i = WakeEvent.deadlineUpdated →
      writeMessageAux c env msg i (fuel + 1) =
        ⟨effDeadline (env.deadline i) :: (writeMessageAux c env msg (i + 1) fuel).armed,
         (writeMessageAux c env msg (i + 1) fuel).sent,
         (writeMessageAux c env msg (i + 1) fuel).result⟩) ∧
    (env.wake i = WakeEvent.ctxDone →
      writeMessageAux c env msg i (fuel + 1) =
        ⟨[effDeadline (env.deadline i)], [], some (0, some WError.closedPipe)⟩) ∧
    (env.wake i = WakeEvent.writeAvailable →
      (writeMessageAux c env msg i (fuel + 1)).sent = [msg]) := by
  refine ⟨?_, ?_, ?_⟩
  · intro hw
    exact writeMessageAux_loop c env msg i fuel
      (by simp [wmStep, hallow, hblocked, hw])
  · intro hw
    exact writeMessageAux_ret c env msg i fuel _ _
      (by simp [wmStep, hallow, hblocked, hw])
  · intro hw
    cases hs : env.sendResult with
    | none =>
        rw [writeMessageAux_ret c env msg i fuel _ _
          (show wmStep c env msg i = WMStep.ret (msg.payload.length, none) [msg] by
            simp [wmStep, hallow, hblocked, hw, hs])]
    | some e2 =>
        rw [writeMessageAux_ret c env msg i fuel _ _
          (show wmStep c env msg i
              = WMStep.ret (0, some (WError.transport e2)) [msg] by
            simp [wmStep, hallow, hblocked, hw, hs])]

/-- C4 amended witness: the wake-behaviour description evaluated on a
permanently blocked environment. -/
theorem c4_witness :
    envDl.allowWrite 0 = true ∧
    cEx.maxBufferedAmount < envDl.bufferedAmount 0 + cEx.varintOverhead
        + protoSize cEx (mkData [1, 2]) ∧
    ((envDl.wake 0 = WakeEvent.deadlineUpdated →
      writeMessageAux cEx envDl (mkData [1, 2]) 0 (2 + 1) =
        ⟨effDeadline (envDl.deadline 0)
           :: (writeMessageAux cEx envDl (mkData [1, 2]) (0 + 1) 2).armed,
         (writeMessageAux cEx envDl (mkData [1, 2]) (0 + 1) 2).sent,
         (writeMessageAux cEx envDl (mkData [1, 2]) (0 + 1) 2).result⟩) ∧
    (envDl.wake 0 = WakeEvent.ctxDone →
      writeMessageAux cEx envDl (mkData [1, 2]) 0 (2 + 1) =
        ⟨[effDeadline (envDl.deadline 0)], [], some (0, some WError.closedPipe)⟩) ∧
    (envDl.wake 0 = WakeEvent.writeAvailable →
      (writeMessageAux cEx envDl (mkData [1, 2]) 0 (2 + 1)).sent = [mkData [1, 2]])) :=
  ⟨rfl, by decide, c4_wakeup_reeval cEx envDl (mkData [1, 2]) 0 2 rfl (by decide)⟩

/-! ## C3 -/

/-- C3 counterexample: the stored write deadline is -100, already far in
the past ("now" is 0), the stream is writable and the payload non-empty;
but the channel reports plenty of buffer space, so — contrary to the
claim — `Write` does not fail with a deadline error: it sends the frame
and returns `(3, nil)`. -/
theorem c3_counterexample :
    envPastDeadline.deadline 0 = -100 ∧
    envPastDeadline.deadline 0 < 0 ∧
    WriteGo cEx (fun _ => envPastDeadline) true [1, 2, 3] 2 2
      = ([mkData [1, 2, 3]], some (3, none)) := by
  decide

/-- C3 amended: the deadline is consulted only when the write is blocked
on flow control. When the admission sum exceeds the ceiling and the
(expired) timer arm fires, `Write` fails immediately with
`os.ErrDeadlineExceeded`, zero bytes and no frame; but whenever the frame
fits, it is handed to the writer and the call succeeds regardless of the
stored deadline, which only ever determines the timer arming value. -/
theorem c3_deadline_only_when_blocked (c : Config) (envs : Nat → MsgEnv)
    (b : List Nat) (wf lf : Nat)
    (hb : b.isEmpty = false)
    (hallow : (envs 0).allowWrite 0 = true)
    (hblocked : c.maxBufferedAmount < (envs 0).bufferedAmount 0 + c.varintOverhead
        + protoSize c (mkData (b.take (chunkLen c b))))
    (hwake : (envs 0).wake 0 = WakeEvent.deadlineTimer) :
    WriteGo c envs true b (wf + 1) (lf + 1)
      = ([], some (0, some WError.deadlineExceeded)) ∧
    ∀ env msg, env.allowWrite 0 = true → env.sendResult = none →
      env.bufferedAmount 0 + c.varintOverhead + protoSize c msg
        ≤ c.maxBufferedAmount →
      writeMessageGo c env msg (wf + 1)
        = ⟨[effDeadline (env.deadline 0)], [msg],
           some (msg.payload.length, none)⟩ := by
  constructor
  · show writeLoop c envs (wf + 1) b 0 (lf + 1) = _
    have hout : writeMessageGo c (envs 0) (mkData (b.take (chunkLen c b))) (wf + 1)
        = ⟨[effDeadline ((envs 0).deadline 0)], [],
           some (0, some WError.deadlineExceeded)⟩ :=
      writeMessageAux_ret c (envs 0) (mkData (b.take (chunkLen c b))) 0 wf _ _
        (by simp [wmStep, hallow, hblocked, hwake])
    rw [writeLoop_cons c envs (wf + 1) b 0 lf hb, hout]
  · intro env msg h1 h2 h3
    have hnb : ¬ env.bufferedAmount 0 + c.varintOverhead + protoSize c msg
        > c.maxBufferedAmount := by omega
    exact writeMessageAux_ret c env msg 0 wf _ _
      (by simp [wmStep, h1, h2, hnb])

/-- C3 amended witness: a blocked write with an expired deadline whose
timer fires returns `(0, deadlineExceeded)` with no frame sent. -/
theorem c3_witness :
    ([1, 2, 3] : List Nat).isEmpty = false ∧
    envTimerFires.allowWrite 0 = true ∧
    cEx.maxBufferedAmount < envTimerFires.bufferedAmount 0 + cEx.varintOverhead
        + protoSize cEx (mkData (([1, 2, 3] : List Nat).take
          (chunkLen cEx [1, 2, 3]))) ∧
    envTimerFires.wake 0 = WakeEvent.deadlineTimer ∧
    (WriteGo cEx (fun _ => envTimerFires) true [1, 2, 3] (1 + 1) (0 + 1)
        = ([], some (0, some WError.deadlineExceeded)) ∧
      ∀ env msg, env.allowWrite 0 = true → env.sendResult = none →
        env.bufferedAmount 0 + cEx.varintOverhead + protoSize cEx msg
          ≤ cEx.maxBufferedAmount →
        writeMessageGo cEx env msg (1 + 1)
          = ⟨[effDeadline (env.deadline 0)], [msg],
             some (msg.payload.length, none)⟩) :=
  ⟨rfl, rfl, by decide, rfl,
    c3_deadline_only_when_blocked cEx (fun _ => envTimerFires) [1, 2, 3] 1 0
      rfl rfl (by decide) rfl⟩

/-! ## C1 -/

/-- C1 counterexample: configuration with chunkSize = 10 - 2 - 1 = 7 and a
channel constantly holding 90 of 100 buffered bytes, so availableSpace is
10. For a 7-byte payload the claim prescribes a frame of
`min(7, maxFrameSize, 10) - frameOverhead = 4` payload bytes (with the
most permissive floor `minFrameSize = 0`; any positive floor ≤ 10 gives
the same, and a floor above 10 prescribes sending nothing) — but the code
sends a single 7-byte frame: the frame size is never shrunk to the
available space and no minimum-frame floor exists. -/
theorem c1_counterexample :
    WriteGo cC1 (fun _ => envC1) true [1, 2, 3, 4, 5, 6, 7] 1 2
      = ([mkData [1, 2, 3, 4, 5, 6, 7]], some (7, none)) ∧
    specNextFrameSize 7 (chunkSize cC1)
        (cC1.maxBufferedAmount - envC1.bufferedAmount 0)
        (cC1.protoOverhead + cC1.varintOverhead) 0 = some 4 ∧
    (mkData [1, 2, 3, 4, 5, 6, 7]).payload.length ≠ 4 := by
  decide

/-- C1 amended: the next frame always carries exactly
`min(L, chunkSize)` payload bytes, where
`chunkSize = maxMessageSize - protoOverhead - varintOverhead` — the size
is fixed by the chunking alone, never shrunk to the available space, and
there is no minimum-frame floor. The frame is sent at once iff
`bufferedAmount + varintOverhead + serializedSize(frame) ≤
maxBufferedAmount`; while that inequality fails (and only deadline-update
wakeups occur) the engine waits and sends nothing at all. -/
theorem c1_frame_size_and_admission (c : Config) (envs : Nat → MsgEnv)
    (env : MsgEnv) (msg : Message) (b : List Nat) (wf lf : Nat)
    (hb : b.isEmpty = false) :
    ((envs 0).allowWrite 0 = true → (envs 0).sendResult = none →
      (envs 0).bufferedAmount 0 + c.varintOverhead
          + protoSize c (mkData (b.take (chunkLen c b))) ≤ c.maxBufferedAmount →
      ∃ rest r, WriteGo c envs true b (wf + 1) (lf + 1)
          = (mkData (b.take (min (chunkSize c) b.length)) :: rest, r) ∧
        (mkData (b.take (min (chunkSize c) b.length))).payload.length
          = min (chunkSize c) b.length) ∧
    ((∀ i, env.allowWrite i = true ∧
        c.maxBufferedAmount < env.bufferedAmount i + c.varintOverhead
          + protoSize c msg ∧
        env.wake i = WakeEvent.deadlineUpdated) →
      ∀ fuel i0, (writeMessageAux c env msg i0 fuel).sent = [] ∧
        (writeMessageAux c env msg i0 fuel).result = none) := by
  constructor
  · intro h1 h2 h3
    have hnb : ¬ (envs 0).bufferedAmount 0 + c.varintOverhead
        + protoSize c (mkData (b.take (chunkLen c b))) > c.maxBufferedAmount := by
      omega
    have hout : writeMessageGo c (envs 0) (mkData (b.take (chunkLen c b))) (wf + 1)
        = ⟨[effDeadline ((envs 0).deadline 0)], [mkData (b.take (chunkLen c b))],
           some ((mkData (b.take (chunkLen c b))).payload.length, none)⟩ :=
      writeMessageAux_ret c (envs 0) (mkData (b.take (chunkLen c b))) 0 wf _ _
        (by simp [wmStep, h1, h2, hnb])
    have hgo : WriteGo c envs true b (wf + 1) (lf + 1)
        = writeLoop c envs (wf + 1) b 0 (lf + 1) := rfl
    rw [hgo, writeLoop_cons c envs (wf + 1) b 0 lf hb, hout,
      chunkLen_eq_min c b]
    refine ⟨_, _, rfl, ?_⟩
    simp only [mkData, List.length_take]
    omega
  · intro hall fuel
    induction fuel with
    | zero => intro i0; simp [writeMessageAux]
    | succ f ih =>
        intro i0
        obtain ⟨h1, h2, h3⟩ := hall i0
        rw [writeMessageAux_loop c env msg i0 f (by simp [wmStep, h1, h2, h3])]
        exact ih (i0 + 1)

/-- C1 amended witness: a four-byte payload through chunkSize 3 with ample
space sends a first frame of exactly `min(4,3) = 3` bytes; the permanently
over-limit environment with deadline-update wakeups never sends. -/
theorem c1_witness :
    ([1, 2, 3, 4] : List Nat).isEmpty = false ∧
    (((fun _ => envOk : Nat → MsgEnv) 0).allowWrite 0 = true →
      ((fun _ => envOk : Nat → MsgEnv) 0).sendResult = none →
      ((fun _ => envOk : Nat → MsgEnv) 0).bufferedAmount 0 + cEx.varintOverhead
          + protoSize cEx (mkData (([1, 2, 3, 4] : List Nat).take
            (chunkLen cEx [1, 2, 3, 4]))) ≤ cEx.maxBufferedAmount →
      ∃ rest r, WriteGo cEx (fun _ => envOk) true [1, 2, 3, 4] (0 + 1) (1 + 1)
          = (mkData (([1, 2, 3, 4] : List Nat).take
              (min (chunkSize cEx) ([1, 2, 3, 4] : List Nat).length)) :: rest, r) ∧
        (mkData (([1, 2, 3, 4] : List Nat).take
            (min (chunkSize cEx) ([1, 2, 3, 4] : List Nat).length))).payload.length
          = min (chunkSize cEx) ([1, 2, 3, 4] : List Nat).length) ∧
    ((∀ i, envDl.allowWrite i = true ∧
        cEx.maxBufferedAmount < envDl.bufferedAmount i + cEx.varintOverhead
          + protoSize cEx (mkData [1, 2]) ∧
        envDl.wake i = WakeEvent.deadlineUpdated) →
      ∀ fuel i0, (writeMessageAux cEx envDl (mkData [1, 2]) i0 fuel).sent = [] ∧
        (writeMessageAux cEx envDl (mkData [1, 2]) i0 fuel).result = none) :=
  ⟨rfl,
    (c1_frame_size_and_admission cEx (fun _ => envOk) envDl (mkData [1, 2])
      [1, 2, 3, 4] 0 1 rfl).1,
    (c1_frame_size_and_admission cEx (fun _ => envOk) envDl (mkData [1, 2])
      [1, 2, 3, 4] 0 1 rfl).2⟩

/-! ## C7 -/

/-- Index lemma for the armed-deadline trace: as long as the first `k`
iterations starting at `i` fall through the deadline-updated arm, the
timer value armed at iteration `i + k` is the deadline as re-read at that
iteration. -/
theorem writeMessageAux_armed_idx (c : Config) (env : MsgEnv) (msg : Message) :
    ∀ k i fuel, (∀ j, j < k → wmStep c env msg (i + j) = WMStep.loop) →
      k < fuel →
      (writeMessageAux c env msg i fuel).armed[k]?
        = some (effDeadline (env.deadline (i + k))) := by
  intro k
  induction k with
  | zero =>
      intro i fuel _ hf
      cases fuel with
      | zero => omega
      | succ f =>
          rcases wmStep_cases c env msg i with hc | hc | ⟨e, _, hc⟩ | ⟨_, hc⟩ | hc
          · rw [writeMessageAux_ret c env msg i f _ _ hc]; simp
          · rw [writeMessageAux_ret c env msg i f _ _ hc]; simp
          · rw [writeMessageAux_ret c env msg i f _ _ hc]; simp
          · rw [writeMessageAux_ret c env msg i f _ _ hc]; simp
          · rw [writeMessageAux_loop c env msg i f hc]; simp
  | succ k ih =>
      intro i fuel hloop hf
      cases fuel with
      | zero => omega
      | succ f =>
          rw [writeMessageAux_loop c env msg i f
            (by simpa using hloop 0 (Nat.succ_pos k))]
          have hloop2 : ∀ j, j < k → wmStep c env msg ((i + 1) + j) = WMStep.loop := by
            intro j hj
            have hrw : (i + 1) + j = i + (j + 1) := by omega
            rw [hrw]
            exact hloop (j + 1) (by omega)
          have harr : i + (k + 1) = (i + 1) + k := by omega
          rw [harr]
          have := ih (i + 1) f hloop2 (by omega)
          simpa using this

/-- C7: `SetWriteDeadline` stores the new deadline and signals the
deadline-updated condition (returning nil); a write blocked on flow
control that is woken by that notification re-reads the stored deadline
and re-arms its timer with the new value before waiting again: after `i`
deadline-updated wakeups, the timer armed for the wait at iteration `i+1`
carries exactly the deadline as stored at that moment — the new value
`t`, not the old one. -/
theorem c7_deadline_update_rearms (c : Config) (env : MsgEnv) (msg : Message)
    (i fuel : Nat) (t : Int) (s : DeadlineState)
    (hloop : ∀ j, j ≤ i → env.allowWrite j = true ∧
      c.maxBufferedAmount < env.bufferedAmount j + c.varintOverhead
        + protoSize c msg ∧
      env.wake j = WakeEvent.deadlineUpdated)
    (hd : env.deadline (i + 1) = t) (ht : t ≠ 0) (hfuel : i + 1 < fuel) :
    SetWriteDeadlineGo s t = (⟨t, true⟩, none) ∧
    (writeMessageGo c env msg fuel).armed[i + 1]? = some t := by
  refine ⟨rfl, ?_⟩
  have hsteps : ∀ j, j < i + 1 → wmStep c env msg (0 + j) = WMStep.loop := by
    intro j hj
    obtain ⟨h1, h2, h3⟩ := hloop j (by omega)
    simp [wmStep, h1, h2, h3]
  have harm := writeMessageAux_armed_idx c env msg (i + 1) 0 fuel hsteps hfuel
  simp only [Nat.zero_add] at harm
  rw [hd] at harm
  have heff : effDeadline t = t := by
    unfold effDeadline
    rw [if_neg ht]
  rw [heff] at harm
  exact harm

/-- C7 witness: blocked with the stored deadline read as 5 at iteration 0
and as 9 from iteration 1 on (updated while blocked); the timer for the
second wait is armed with 9, and `SetWriteDeadline 9` stores and
signals. -/
theorem c7_witness :
    (∀ j, j ≤ 0 → envDl.allowWrite j = true ∧
      cEx.maxBufferedAmount < envDl.bufferedAmount j + cEx.varintOverhead
        + protoSize cEx (mkData [1, 2]) ∧
      envDl.wake j = WakeEvent.deadlineUpdated) ∧
    envDl.deadline (0 + 1) = 9 ∧ (9 : Int) ≠ 0 ∧ 0 + 1 < 3 ∧
    (SetWriteDeadlineGo ⟨5, false⟩ 9 = (⟨9, true⟩, none) ∧
      (writeMessageGo cEx envDl (mkData [1, 2]) 3).armed[0 + 1]? = some 9) :=
  ⟨by decide, by decide, by decide, by decide,
    c7_deadline_update_rearms cEx envDl (mkData [1, 2]) 0 3 9 ⟨5, false⟩
      (by decide) (by decide) (by decide) (by decide)⟩
